import Mathlib

/-!
Shallow embedding of the local data-caching layer of the js-sdk repository:
the cache middleware's `DB` class (src/rack/middleware/cache.js), the storage
provider selector (src/core/datastore/repositories/repository-provider.js),
and the per-key operation serializer.  Asynchronous computations are embedded
as their settled outcomes (`Except` for resolve/reject); JavaScript values
that can be of several runtime types are embedded as the inductive `JsVal`.
-/

namespace JsSdk

/-- A JavaScript runtime value, restricted to the shapes the embedded code
inspects: strings, numbers, booleans, null, undefined and opaque objects. -/
inductive JsVal where
  | str (s : String)
  | num (n : Int)
  | boolean (b : Bool)
  | nullV
  | undefinedV
  | objV
deriving DecidableEq, Repr

/-- JavaScript truthiness for `JsVal`: empty string, 0, false, null and
undefined are falsy; everything else is truthy. -/
def JsVal.truthy : JsVal → Bool
  | .str s => s != ""
  | .num n => n != 0
  | .boolean b => b
  | .nullV => false
  | .undefinedV => false
  | .objV => true

/-- lodash `isString`. -/
def JsVal.isString : JsVal → Bool
  | .str _ => true
  | _ => false

/-- The string payload of a `JsVal` known to be a string. -/
def JsVal.strVal : JsVal → String
  | .str s => s
  | _ => ""

/-- The `_kmd` metadata object of a record: a "locally originated" flag plus
opaque further content. -/
structure Kmd where
  local_ : Bool
  extra : String
deriving DecidableEq, Repr

/-- The empty metadata object `{}` (no flag set). -/
def Kmd.empty : Kmd := ⟨false, ""⟩

/-- A stored record: the `_id` attribute (absent when the field is missing),
the `_kmd` metadata attribute, and an opaque payload standing for all other
fields. -/
structure Entity where
  id : Option String
  kmd : Option Kmd
  data : String
deriving DecidableEq, Repr

/-- Truthiness of the `_id` attribute as the source tests it with `!id`:
a missing id or the empty string is falsy. -/
def idTruthy : Option String → Bool
  | none => false
  | some s => s != ""

/-- The `entity[idAttribute]` value as a JavaScript value (absent map lookup
yields undefined). -/
def jsOfId : Option String → JsVal
  | none => .undefinedV
  | some s => .str s

/-- A query predicate.  Modelled from the spec: the query expression language
is an external collaborator; these constructors are enough to express
arbitrary matching/non-matching record sets over the embedded records. -/
inductive Filter where
  | all
  | idEq (s : String)
  | dataEq (s : String)
  | dataNe (s : String)
deriving DecidableEq, Repr

def Filter.eval : Filter → Entity → Bool
  | .all, _ => true
  | .idEq s, e => e.id == some s
  | .dataEq s, e => e.data == s
  | .dataNe s, e => e.data != s

/-- A sort key for query results.  Modelled from the spec (sort specification
of a Query); the concrete comparison is irrelevant to every claim. -/
inductive SortKey where
  | byId
  | byData
deriving DecidableEq, Repr

/-- Boolean lexicographic comparison on characters of a string (used only to
give the sort key an executable meaning). -/
def strLeB : List Char → List Char → Bool
  | [], _ => true
  | _ :: _, [] => false
  | a :: as, b :: bs =>
    if a.toNat < b.toNat then true
    else if b.toNat < a.toNat then false
    else strLeB as bs

def SortKey.le : SortKey → Entity → Entity → Bool
  | .byId, a, b => strLeB ((a.id.getD "").toList) ((b.id.getD "").toList)
  | .byData, a, b => strLeB a.data.toList b.data.toList

/-- Insertion into a sorted list with a boolean comparator. -/
def insertLe (le : Entity → Entity → Bool) (e : Entity) : List Entity → List Entity
  | [] => [e]
  | x :: xs => if le e x then e :: x :: xs else x :: insertLe le e xs

/-- Insertion sort with a boolean comparator. -/
def sortByLe (le : Entity → Entity → Bool) : List Entity → List Entity
  | [] => []
  | x :: xs => insertLe le x (sortByLe le xs)

/-- A Query: predicate / sort / limit / skip, as stored on a `Query`
instance.  Modelled from the spec: the Query class is an external
collaborator; these are the four fields the cache engine reads and writes. -/
structure Query where
  filter : Filter
  sort : Option SortKey
  limit : Option Nat
  skip : Nat
deriving DecidableEq, Repr

def applySort : Option SortKey → List Entity → List Entity
  | none, l => l
  | some k, l => sortByLe k.le l

def applyLimit : Option Nat → List Entity → List Entity
  | none, l => l
  | some n, l => l.take n

/-- `Query._process`: filter by the predicate, sort, skip, limit.  Modelled
from the spec: "an externally supplied predicate/sort/limit/skip
specification; processed against an in-memory list of Records". -/
def Query.process (q : Query) (l : List Entity) : List Entity :=
  applyLimit q.limit ((applySort q.sort (l.filter q.filter.eval)).drop q.skip)

/-- A plain (non-`Query`-instance) query specification, carrying the same
four components; `new Query(spec)` copies them into a fresh instance. -/
structure QuerySpec where
  filter : Filter
  sort : Option SortKey
  limit : Option Nat
  skip : Nat
deriving DecidableEq, Repr

/-- `new Query(spec)`. -/
def Query.ofSpec (s : QuerySpec) : Query := ⟨s.filter, s.sort, s.limit, s.skip⟩

/-- The query argument a caller hands to a DB operation: either an existing
`Query` instance (aliased, so in-place mutation is caller-visible) or a plain
specification object (copied into a fresh `Query`). -/
inductive QueryInput where
  | inst (q : Query)
  | plain (s : QuerySpec)
deriving DecidableEq, Repr

/-- Errors a DB operation can settle with: the adapter's `NotFoundError`
(the only error class the cache engine treats specially) and `KinveyError`
with its message. -/
inductive DbErr where
  | notFound
  | kinvey (msg : String)
deriving DecidableEq, Repr

/-- The contents of the logical database the adapter owns: an association of
collection name to stored records. -/
def AdapterState := List (String × List Entity)
deriving DecidableEq, Repr

def getColl : AdapterState → String → Option (List Entity)
  | [], _ => none
  | (n, l) :: rest, c => if n = c then some l else getColl rest c

def setColl : AdapterState → String → List Entity → AdapterState
  | [], c, l => [(c, l)]
  | (n, l0) :: rest, c, l =>
    if n = c then (c, l) :: rest else (n, l0) :: setColl rest c l

/-- The records of a collection, the empty list when the collection does not
exist yet. -/
def collOf (st : AdapterState) (c : String) : List Entity :=
  (getColl st c).getD []

/-- Replace-or-append of one record, keyed by its `_id` attribute. -/
def upsertOne (e : Entity) (l : List Entity) : List Entity :=
  if l.any (fun x => x.id == e.id) then
    l.map (fun x => if x.id == e.id then e else x)
  else l ++ [e]

namespace Adapter

/-- Modelled from the spec: the Storage Adapter (concrete adapter bodies are
environment bindings outside src/). `find` returns the full contents of a
collection and raises Not-Found when the collection does not exist. -/
def find (st : AdapterState) (c : String) : Except DbErr (List Entity) :=
  match getColl st c with
  | some l => .ok l
  | none => .error .notFound

/-- Modelled from the spec: `findById` returns the record with the given
identifier and raises Not-Found when it (or the collection) is absent. -/
def findById (st : AdapterState) (c : String) (i : String) : Except DbErr Entity :=
  match getColl st c with
  | none => .error .notFound
  | some l =>
    match l.find? (fun e => e.id == some i) with
    | some e => .ok e
    | none => .error .notFound

/-- Modelled from the spec: `save` persists each record keyed by its
identifier field and returns the saved records. -/
def save (st : AdapterState) (c : String) (es : List Entity) :
    List Entity × AdapterState :=
  (es, setColl st c (es.foldl (fun l e => upsertOne e l) (collOf st c)))

/-- Modelled from the spec: `removeById` deletes the record keyed by the
given identifier, returning it, and raises Not-Found when it is absent. -/
def removeById (st : AdapterState) (c : String) (i : String) :
    Except DbErr Entity × AdapterState :=
  match getColl st c with
  | none => (.error .notFound, st)
  | some l =>
    match l.find? (fun e => e.id == some i) with
    | none => (.error .notFound, st)
    | some e => (.ok e, setColl st c (l.filter (fun x => !(x.id == some i))))

end Adapter

namespace DB

/-- `DB.generateObjectId`: a fresh identifier of `length` characters drawn
from the hex alphabet; `randPos i` stands for `Math.floor(Math.random()*16)`
at the i-th character. The object id prefix of the base class is `''`. -/
def generateObjectId (randPos : Nat → Nat) (length : Nat := 24) : String :=
  String.mk ((List.range length).map
    (fun i => "abcdef0123456789".toList.getD (randPos i % 16) 'a'))

/-- Normalization of a query argument as done at the top of `DB.find`: a
plain specification is copied into a fresh `Query`; an instance is used
as-is. -/
def normQuery : Option QueryInput → Option Query
  | none => none
  | some (.inst q) => some q
  | some (.plain s) => some (Query.ofSpec s)

/-- `DB.find` (cache.js lines 109-129): fetch the full collection from the
adapter, apply the query if present and the collection is non-empty, and
normalize an adapter Not-Found to the empty list.  The second component is
the caller's query object after the call: `find` performs no assignment to
the query's fields, so it is the argument itself. -/
def find (st : AdapterState) (c : String) (q : Option QueryInput) :
    Except DbErr (List Entity) × Option QueryInput :=
  (match Adapter.find st c with
   | .error e => if e = .notFound then .ok [] else .error e
   | .ok entities =>
     match normQuery q with
     | some query => .ok (if entities.length > 0 then query.process entities else entities)
     | none => .ok entities,
   q)

/-- `DB.count`: `find(...).length`, wrapped as `{count}` (embedded as the
bare count). -/
def count (st : AdapterState) (c : String) (q : Option QueryInput) :
    Except DbErr Nat × Option QueryInput :=
  (((find st c q).1).map List.length, (find st c q).2)

/-- The Aggregation collaborator.  Modelled from the spec: an externally
supplied grouping/reduction pipeline applied to the in-memory record list. -/
structure Aggregation where
  process : List Entity → Int

/-- `DB.group`: fetch the full collection (no query), apply the aggregation
pipeline when the collection is non-empty, else return null. -/
def group (st : AdapterState) (c : String) (a : Aggregation) :
    Except DbErr (Option Int) :=
  ((find st c none).1).map
    (fun entities => if entities.length > 0 then some (a.process entities) else none)

/-- `DB.findById` (cache.js lines 150-164): a non-string id throws a
`KinveyError`, which the catch block rethrows (it is not a `NotFoundError`).
The adapter's promise is returned without `await`, so the try/catch covers
only the synchronous id check: an adapter rejection (including Not-Found)
bypasses the catch and propagates to the caller. -/
def findById (st : AdapterState) (c : String) (id : JsVal) :
    Except DbErr (Option Entity) :=
  if id.isString = false then .error (.kinvey "id must be a string")
  else
    match Adapter.findById st c id.strVal with
    | .ok e => .ok (some e)
    | .error e => .error e

/-- The per-record normalization inside `DB.save`: a record whose id is
falsy gets a generated id and its (defaulted) metadata marked locally
originated; a record with an id keeps its metadata, defaulted to `{}`.
`gen n` is the n-th generated object id of the call. -/
def prepEntities (gen : Nat → String) : Nat → List Entity → List Entity
  | _, [] => []
  | n, e :: rest =>
    if idTruthy e.id then
      { e with kmd := some (e.kmd.getD Kmd.empty) } :: prepEntities gen n rest
    else
      { e with id := some (gen n),
               kmd := some { e.kmd.getD Kmd.empty with local_ := true } }
        :: prepEntities gen (n + 1) rest

/-- The `entities` argument of `DB.save`: the parameter defaults to `[]`
when absent (`undef`); an explicitly falsy argument (`null`, `0`, `''`,
`false`) takes the early `return null` branch (`nullish`); otherwise a
single record or an array of records. -/
inductive SaveArg where
  | undef
  | nullish
  | single (e : Entity)
  | seq (l : List Entity)
deriving DecidableEq, Repr

/-- What `DB.save` settles with. -/
inductive SaveOut where
  | nullOut
  | one (e : Entity)
  | seq (l : List Entity)
deriving DecidableEq, Repr

/-- `DB.save` (cache.js lines 166-203): normalize to a sequence remembering
whether the input was singular, assign ids/metadata, delegate to the
adapter, and return a single record iff the input was singular and the
adapter returned a non-empty sequence. -/
def save (st : AdapterState) (gen : Nat → String) (c : String) (arg : SaveArg) :
    Except DbErr SaveOut × AdapterState :=
  match arg with
  | .nullish => (.ok .nullOut, st)
  | .undef =>
    let (saved, st') := Adapter.save st c (prepEntities gen 0 [])
    (.ok (.seq saved), st')
  | .single e =>
    let (saved, st') := Adapter.save st c (prepEntities gen 0 [e])
    (match saved with
     | s :: _ => .ok (.one s)
     | [] => .ok (.seq []), st')
  | .seq l =>
    let (saved, st') := Adapter.save st c (prepEntities gen 0 l)
    (.ok (.seq saved), st')

/-- `DB.removeById` (cache.js lines 229-243): a falsy id short-circuits to
undefined; a truthy non-string id throws a `KinveyError`; otherwise the
adapter's removal outcome is returned (its catch block rethrows every
error). -/
def removeById (st : AdapterState) (c : String) (id : JsVal) :
    Except DbErr (Option Entity) × AdapterState :=
  if id.truthy = false then (.ok none, st)
  else if id.isString = false then (.error (.kinvey "id must be a string"), st)
  else
    match Adapter.removeById st c id.strVal with
    | (.ok e, st') => (.ok (some e), st')
    | (.error e, st') => (.error e, st')

/-- The `Promise.all(entities.map(entity => removeById(...)))` of
`DB.remove`: every removal is issued (in order, on the single-threaded
scheduling model), each threading the adapter state. -/
def removeEach (c : String) : AdapterState → List JsVal →
    List (Except DbErr (Option Entity)) × AdapterState
  | st, [] => ([], st)
  | st, i :: rest =>
    ((removeById st c i).1 :: (removeEach c (removeById st c i).2 rest).1,
     (removeEach c (removeById st c i).2 rest).2)

/-- `Promise.all` settles with the collected values, or rejects with the
first rejection. -/
def collectAll : List (Except DbErr (Option Entity)) →
    Except DbErr (List (Option Entity))
  | [] => .ok []
  | .error e :: _ => .error e
  | .ok x :: rest => (collectAll rest).map (x :: ·)

/-- The outcome of `DB.remove`, including the caller's query object after
the call (`remove` mutates a supplied `Query` instance in place). -/
structure RemoveResult where
  result : Except DbErr (List (Option Entity))
  state : AdapterState
  callerQuery : Option QueryInput
deriving Repr

/-- The fetch-then-remove-each tail of `DB.remove`, after the query has
been normalized and its windowing cleared. -/
def removeCore (st : AdapterState) (c : String) (qObj : Option Query) :
    Except DbErr (List (Option Entity)) × AdapterState :=
  match (find st c (qObj.map .inst)).1 with
  | .error e => (.error e, st)
  | .ok entities =>
    (collectAll (removeEach c st (entities.map (fun e => jsOfId e.id))).1,
     (removeEach c st (entities.map (fun e => jsOfId e.id))).2)

/-- `DB.remove` (cache.js lines 205-227): a plain specification is copied
into a fresh `Query`; then `query.sort = null; query.limit = null;
query.skip = 0` — on the instance branch this mutates the caller's object.
The matching records are then fetched and each is removed by its id. -/
def remove (st : AdapterState) (c : String) (q : Option QueryInput) :
    RemoveResult :=
  let qObj' := (normQuery q).map
    (fun qq => { qq with sort := none, limit := none, skip := 0 })
  { result := (removeCore st c qObj').1,
    state := (removeCore st c qObj').2,
    callerQuery :=
      match q with
      | some (.inst qq) => some (.inst { qq with sort := none, limit := none, skip := 0 })
      | other => other }

/-- The instance members the `DB` class body defines (cache.js lines
38-244). -/
def methodNames : List String :=
  ["constructor", "objectIdPrefix", "generateObjectId", "find", "count",
   "group", "findById", "save", "remove", "removeById"]

end DB

/-- `RequestMethod` values the middleware dispatches on. -/
inductive RequestMethod where
  | GET
  | POST
  | PUT
  | DELETE
deriving DecidableEq, Repr

/-- Response status codes used by the middleware. -/
inductive StatusCode where
  | Ok
  | Created
deriving DecidableEq, Repr

/-- What `handle` can reject with: a DB-operation error, or the TypeError of
calling a member that is not a function. -/
inductive HandleErr where
  | db (e : DbErr)
  | typeError (msg : String)
deriving DecidableEq, Repr

/-- The data payloads a cache-middleware response can carry. -/
inductive HData where
  | entities (l : List Entity)
  | entity (e : Option Entity)
  | removedList (l : List (Option Entity))
  | cnt (n : Nat)
  | grouped (g : Option Int)
  | saved (s : DB.SaveOut)
deriving Repr

structure HResponse where
  statusCode : StatusCode
  data : HData
deriving Repr

/-- The request fields `CacheMiddleware.handle` destructures.  The JS `body`
field serves both as the save payload (POST/PUT) and as the aggregation
specification (GET `_group`); it is split into two typed fields here.
`appKey` names the logical database the `DB` instance is constructed over;
the adapter state below is that database's contents. -/
structure HRequest where
  method : RequestMethod
  collectionName : Option String
  entityId : Option String
  query : Option QueryInput
  body : DB.SaveArg
  bodyAgg : DB.Aggregation
  appKey : String

/-- Truthiness of an optional string request field. -/
def strTruthy : Option String → Bool
  | none => false
  | some s => s != ""

/-- The collection-name argument handed to the DB operations (JavaScript
passes the raw, possibly undefined, value through; an undefined name reaches
the adapter as the key "undefined"). -/
def collKey : Option String → String
  | some s => s
  | none => "undefined"

/-- `CacheMiddleware.handle` (cache.js lines 255-292): dispatch on method,
collection name and entity id; on the DELETE branch with no collection name
the source calls `db.clear()`, a member the `DB` class does not define, so
that call throws a TypeError before any record is touched.  Successful
branches respond with `Created` for POST and `Ok` otherwise. -/
def CacheMiddleware.handle (st : AdapterState) (gen : Nat → String)
    (r : HRequest) : Except HandleErr HResponse × AdapterState :=
  let c := collKey r.collectionName
  let status : StatusCode := if r.method = .POST then .Created else .Ok
  match r.method with
  | .GET =>
    (match r.entityId with
     | some eid =>
       if strTruthy (some eid) then
         if eid = "_count" then
           match (DB.count st c r.query).1 with
           | .ok n => (.ok ⟨status, .cnt n⟩, st)
           | .error e => (.error (.db e), st)
         else if eid = "_group" then
           match DB.group st c r.bodyAgg with
           | .ok g => (.ok ⟨status, .grouped g⟩, st)
           | .error e => (.error (.db e), st)
         else
           match DB.findById st c (.str eid) with
           | .ok e => (.ok ⟨status, .entity e⟩, st)
           | .error e => (.error (.db e), st)
       else
         match (DB.find st c r.query).1 with
         | .ok l => (.ok ⟨status, .entities l⟩, st)
         | .error e => (.error (.db e), st)
     | none =>
       match (DB.find st c r.query).1 with
       | .ok l => (.ok ⟨status, .entities l⟩, st)
       | .error e => (.error (.db e), st))
  | .POST | .PUT =>
    (match DB.save st gen c r.body with
     | (.ok s, st') => (.ok ⟨status, .saved s⟩, st')
     | (.error e, st') => (.error (.db e), st'))
  | .DELETE =>
    if strTruthy r.collectionName && strTruthy r.entityId then
      match DB.removeById st c (jsOfId r.entityId) with
      | (.ok e, st') => (.ok ⟨status, .entity e⟩, st')
      | (.error e, st') => (.error (.db e), st')
    else if strTruthy r.collectionName = false then
      -- `data = await db.clear()`: `db.clear` is undefined, so the call
      -- rejects with a TypeError and the response line is never reached.
      (.error (.typeError "db.clear is not a function"), st)
    else
      let rr := DB.remove st c r.query
      match rr.result with
      | .ok l => (.ok ⟨status, .removedList l⟩, rr.state)
      | .error e => (.error (.db e), rr.state)

/-!
Embedding of src/core/datastore/repositories/repository-provider.js.
Rejected promises are embedded as `Except.error` carrying the rejection
reason; a thrown error inside a `.catch` callback rejects the promise that
callback produces, which the next `.catch` in the chain observes.
-/

/-- The shared `PromiseQueueByKey` instance handed to every repo builder. -/
inductive RepoQueue where
  | shared
deriving DecidableEq, Repr

/-- An offline repository candidate: which storage provider built it and
whether its support test (`repo.create(testSupportCollection, {_id:'1'})`)
resolves in this environment. -/
structure Repo where
  provider : String
  probeOk : Bool
deriving DecidableEq, Repr

/-- A repo builder, as stored in the `_availableStorages` mapping: a
function of the shared queue. -/
def RepoBuilder := RepoQueue → Repo

/-- A rejection reason flowing through provider resolution. -/
inductive ResolveErr where
  | initial
  | storageNotAvailable (sp : String)
  | probeFailed
  | noSupportedStorage
deriving DecidableEq, Repr

/-- `_testRepoSupport`: the liveness probe; resolves iff the candidate's
test write succeeds. -/
def testRepoSupport (repo : Repo) : Except ResolveErr Unit :=
  if repo.probeOk then .ok () else .error .probeFailed

/-- `_getRepoForStorageProvider`: look up the builder in the current
mapping; throw a `KinveyError` naming the provider when it is absent, else
build the candidate with the shared queue. -/
def getRepoForStorageProvider (avail : List (String × RepoBuilder))
    (storageProvider : String) : Except ResolveErr Repo :=
  match List.lookup storageProvider avail with
  | none => .error (.storageNotAvailable storageProvider)
  | some repoBuilder => .ok (repoBuilder .shared)

/-- One `.catch` step of the reduce chain in `_getFirstSupportedRepo`: a
resolved accumulator is passed through; a rejected accumulator (for any
reason) triggers building and probing the next candidate. -/
def firstSupportedStep (avail : List (String × RepoBuilder))
    (result : Except ResolveErr Repo) (storageProvider : String) :
    Except ResolveErr Repo :=
  match result with
  | .ok repo => .ok repo
  | .error _ =>
    match getRepoForStorageProvider avail storageProvider with
    | .error e => .error e
    | .ok repo =>
      match testRepoSupport repo with
      | .ok _ => .ok repo
      | .error e => .error e

/-- `_getFirstSupportedRepo`: `storagePrecedence.reduce(..., Promise.reject())`. -/
def getFirstSupportedRepo (avail : List (String × RepoBuilder))
    (storagePrecedence : List String) : Except ResolveErr Repo :=
  storagePrecedence.foldl (firstSupportedStep avail) (.error .initial)

/-- `_chooseOfflineRepo`: run the chain over the configured precedence list
and replace any rejection with the single `KinveyError` "None of the
selected storage providers are supported in this environment.". -/
def chooseOfflineRepo (avail : List (String × RepoBuilder))
    (storagePrecedence : List String) : Except ResolveErr Repo :=
  match getFirstSupportedRepo avail storagePrecedence with
  | .ok repo => .ok repo
  | .error _ => .error .noSupportedStorage

/-- The module-level mutable state of repository-provider.js:
`_chosenRepoPromise`, `_availableStorages`, and the storage precedence the
shared client is configured with (read by `_getRepoType`, already in array
form as `ensureArray` leaves it). -/
structure ProviderState where
  chosenRepoPromise : Option (Except ResolveErr Repo)
  availableStorages : List (String × RepoBuilder)
  clientStorage : List String

/-- `getOfflineRepository`: resolve on first call and memoize the promise
(whether it fulfils or rejects); later calls return the memoized promise. -/
def getOfflineRepository (s : ProviderState) :
    Except ResolveErr Repo × ProviderState :=
  match s.chosenRepoPromise with
  | some p => (p, s)
  | none =>
    let p := chooseOfflineRepo s.availableStorages s.clientStorage
    (p, { s with chosenRepoPromise := some p })

/-- `setSupportedRepoBuilders`: replace the whole technology mapping. -/
def setSupportedRepoBuilders (s : ProviderState)
    (repos : List (String × RepoBuilder)) : ProviderState :=
  { s with availableStorages := repos }

/-- `getSupportedStorages`: the identifiers currently registered. -/
def getSupportedStorages (s : ProviderState) : List String :=
  s.availableStorages.map Prod.fst

/-!
The per-key operation serializer.
-/

/-- Modelled from the spec: the `PromiseQueueByKey` operation serializer is
imported by repository-provider.js but its source is not under src/.  An
operation submitted to it is identified by its submission index, owns a key,
takes `steps + 1` scheduling turns to settle, and either fulfils or fails
(`fails`); per the spec its outcome must not influence scheduling. -/
structure SerOp where
  key : String
  steps : Nat
  fails : Bool
deriving DecidableEq, Repr

/-- A queued operation: submission index, total turns, turns already run,
and its eventual outcome flag. -/
structure QOp where
  idx : Nat
  total : Nat
  done : Nat
  fails : Bool
deriving DecidableEq, Repr

/-- The serializer registry: each key's FIFO queue of pending operations
(modelled from the spec: "a registry of per-key sequential execution
queues"). -/
def QState := String → List QOp

/-- One scheduling turn of an operation: the pair (submission index, turn
number). -/
abbrev SerEvent := Nat × Nat

/-- The operations of one key, in submission order, with their submission
indices. -/
def keyOps (ops : List SerOp) (k : String) : List (Nat × SerOp) :=
  ops.enum.filter (fun p => p.2.key == k)

/-- All operations submitted up front, each appended to its key's queue in
submission order. -/
def initQState (ops : List SerOp) : QState := fun k =>
  (keyOps ops k).map (fun p => ⟨p.1, p.2.steps + 1, 0, p.2.fails⟩)

/-- One cooperative scheduling turn granted to key `k`: only the head of the
key's queue may run; when its last turn completes it is dequeued — whether
it fulfilled or failed — so the next operation of the key becomes runnable. -/
def stepKey (st : QState) (k : String) : Option (SerEvent × QState) :=
  match st k with
  | [] => none
  | q :: rest =>
    if q.done < q.total then
      let newq := if q.done + 1 = q.total then rest else
        { q with done := q.done + 1 } :: rest
      some ((q.idx, q.done), fun k2 => if k2 = k then newq else st k2)
    else none

/-- An execution: from a state, a sequence of scheduling turns granted to
arbitrarily chosen keys. -/
inductive SerExec : QState → List SerEvent → QState → Prop where
  | nil (s : QState) : SerExec s [] s
  | step {s : QState} {k : String} {e : SerEvent} {s2 s3 : QState}
      {tr : List SerEvent} :
      stepKey s k = some (e, s2) → SerExec s2 tr s3 → SerExec s (e :: tr) s3

/-- The turns of one operation, in order. -/
def opEvents (i total : Nat) : List SerEvent :=
  (List.range total).map (fun s => (i, s))

/-- The fully sequential event sequence of one key: each of its operations
run to completion, in submission order. -/
def canonicalKeyTrace (ops : List SerOp) (k : String) : List SerEvent :=
  ((keyOps ops k).map (fun p => opEvents p.1 (p.2.steps + 1))).flatten

/-- Whether an event belongs to an operation owned by key `k`. -/
def isKeyEvent (ops : List SerOp) (k : String) (e : SerEvent) : Bool :=
  match ops[e.1]? with
  | some op => op.key == k
  | none => false

/-- Rewriting every queued operation's outcome flag (leaving the schedule
alone). -/
def setFailsTo (g : Nat → Bool) (st : QState) : QState := fun k =>
  (st k).map (fun q => { q with fails := g q.idx })

/-- The already-run turns of a queue's head operation (empty when the queue
is empty). -/
def headEvents (q : List QOp) : List SerEvent :=
  match q.head? with
  | none => []
  | some qh => opEvents qh.idx qh.done

/-- The invariant tying one key's queue to the trace so far: the queue is
the suffix of the key's submitted operations from some position `m` on (with
matching totals), only its head has run any turns (and is not yet settled),
and the key's events in the trace are exactly the first `m` operations run
to completion followed by the head's turns so far. -/
def keyInvAt (ops : List SerOp) (tr : List SerEvent) (k : String)
    (q : List QOp) : Prop :=
  ∃ m,
    q.map (fun qe => (qe.idx, qe.total))
        = ((keyOps ops k).drop m).map (fun p => (p.1, p.2.steps + 1))
    ∧ (∀ qh ∈ q.head?, qh.done < qh.total)
    ∧ (∀ qe ∈ q.tail, qe.done = 0)
    ∧ tr.filter (isKeyEvent ops k)
        = (((keyOps ops k).take m).map (fun p => opEvents p.1 (p.2.steps + 1))).flatten
          ++ headEvents q

/-- The serializer invariant: every key's queue satisfies `keyInvAt`. -/
def serInv (ops : List SerOp) (tr : List SerEvent) (st : QState) : Prop :=
  ∀ k, keyInvAt ops tr k (st k)

/-!
Concrete fixtures used by witnesses and counterexamples.
-/

/-- A registered in-memory builder whose probe succeeds. -/
def memBuilder : RepoBuilder := fun _ => ⟨"Memory", true⟩

/-- A registered in-memory builder whose probe fails. -/
def memFailingBuilder : RepoBuilder := fun _ => ⟨"Memory", false⟩

/-- A technology mapping registering only "Memory", probe succeeding. -/
def availMemOnly : List (String × RepoBuilder) := [("Memory", memBuilder)]

/-- A technology mapping registering only "Memory", probe failing. -/
def availMemFailing : List (String × RepoBuilder) := [("Memory", memFailingBuilder)]

/-- A one-record "books" collection. -/
def stBooks : AdapterState := [("books", [⟨some "b1", some Kmd.empty, "x"⟩])]

/-- A query with a sort, a limit and a skip set. -/
def q0 : Query := ⟨.all, some .byId, some 1, 2⟩

/-- A DELETE request with no collection name. -/
def reqClear : HRequest :=
  ⟨.DELETE, none, none, none, .undef, ⟨fun _ => 0⟩, "app"⟩

/-- A three-record "notes" collection: two records with payload "x", one
with payload "y". -/
def stC6 : AdapterState :=
  [("notes", [⟨some "a1", none, "x"⟩, ⟨some "b1", none, "y"⟩, ⟨some "a2", none, "x"⟩])]

/-- A query matching payload "x", windowed with a sort, `limit 1` and a
skip. -/
def qWindowed : Query := ⟨.dataEq "x", some .byId, some 1, 1⟩

/-- Two two-turn operations under distinct keys "a" and "b". -/
def opsAB : List SerOp := [⟨"a", 1, false⟩, ⟨"b", 1, false⟩]

/-- Two one-turn operations under the same key, the first failing. -/
def opsFailThenRun : List SerOp := [⟨"a", 0, true⟩, ⟨"a", 0, false⟩]

/-!
Helper lemmas.
-/

theorem firstSupportedStep_error (avail : List (String × RepoBuilder))
    (e1 e2 : ResolveErr) (sp : String) :
    firstSupportedStep avail (.error e1) sp
      = firstSupportedStep avail (.error e2) sp := rfl

theorem foldl_firstSupportedStep_error_indep (avail : List (String × RepoBuilder))
    (l : List String) (h : l ≠ []) (e1 e2 : ResolveErr) :
    l.foldl (firstSupportedStep avail) (.error e1)
      = l.foldl (firstSupportedStep avail) (.error e2) := by
  cases l with
  | nil => exact absurd rfl h
  | cons a t =>
    simp only [List.foldl]
    rw [firstSupportedStep_error avail e1 e2 a]

theorem foldl_firstSupportedStep_all_fail (avail : List (String × RepoBuilder))
    (l : List String)
    (h : ∀ sp ∈ l, ∀ b, List.lookup sp avail = some b → (b .shared).probeOk = false) :
    ∀ e, ∃ e2, l.foldl (firstSupportedStep avail) (.error e) = .error e2 := by
  induction l with
  | nil => exact fun e => ⟨e, rfl⟩
  | cons a t ih =>
    intro e
    have ht : ∀ sp ∈ t, ∀ b, List.lookup sp avail = some b → (b .shared).probeOk = false :=
      fun sp hsp => h sp (List.mem_cons_of_mem _ hsp)
    simp only [List.foldl]
    cases hl : List.lookup a avail with
    | none =>
      have hstep : firstSupportedStep avail (.error e) a = .error (.storageNotAvailable a) := by
        simp [firstSupportedStep, getRepoForStorageProvider, hl]
      rw [hstep]
      exact ih ht _
    | some b =>
      have hb := h a (List.mem_cons_self a t) b hl
      have hstep : firstSupportedStep avail (.error e) a = .error .probeFailed := by
        simp [firstSupportedStep, getRepoForStorageProvider, hl, testRepoSupport, hb]
      rw [hstep]
      exact ih ht _

theorem beq_comm_opt (a b : Option String) : (a == b) = (b == a) := by
  cases h : a == b
  · cases h2 : b == a
    · rfl
    · exact absurd (eq_of_beq h2).symm (by simpa using h)
  · exact (beq_iff_eq.mpr (eq_of_beq h).symm).symm

theorem filter_filter_bool {α : Type} (l : List α) (p q : α → Bool) :
    List.filter q (List.filter p l) = List.filter (fun a => p a && q a) l := by
  induction l with
  | nil => rfl
  | cons x xs ih =>
    simp only [List.filter_cons]
    cases hp : p x <;> cases hq : q x <;> simp [hp, hq, ih]

theorem getColl_setColl (st : AdapterState) (c : String) (l : List Entity) :
    getColl (setColl st c l) c = some l := by
  induction st with
  | nil => simp [setColl, getColl]
  | cons p rest ih =>
    unfold setColl
    by_cases h : p.1 = c
    · simp [h, getColl]
    · simp [h, getColl, ih]

theorem collOf_setColl (st : AdapterState) (c : String) (l : List Entity) :
    collOf (setColl st c l) c = l := by
  rw [collOf, getColl_setColl]
  rfl

/-- In a collection with no duplicate ids, searching for a member's id finds
exactly that member. -/
theorem find?_id_unique (l : List Entity) (e : Entity)
    (hn : (l.map Entity.id).Nodup) (he : e ∈ l) :
    l.find? (fun x => x.id == e.id) = some e := by
  induction l with
  | nil => exact absurd he (List.not_mem_nil e)
  | cons x xs ih =>
    rcases List.mem_cons.mp he with h1 | h2
    · subst h1
      simp [List.find?]
    · have hxne : (x.id == e.id) = false := by
        cases hbe : x.id == e.id
        · rfl
        · have hxid : x.id = e.id := eq_of_beq hbe
          have : x.id ∈ xs.map Entity.id := hxid ▸ List.mem_map_of_mem Entity.id h2
          exact absurd this (by simpa using (List.nodup_cons.mp hn).1)
      rw [List.find?]
      rw [hxne]
      exact ih (List.nodup_cons.mp hn).2 h2

/-- `DB.find` with a query whose windowing is cleared returns exactly the
records matching the predicate. -/
theorem find_cleared_query (st : AdapterState) (c : String) (f : Filter) :
    (DB.find st c (some (.inst ⟨f, none, none, 0⟩))).1
      = .ok ((collOf st c).filter f.eval) := by
  unfold DB.find
  cases hg : getColl st c with
  | none => simp [Adapter.find, hg, collOf]
  | some l =>
    cases l with
    | nil => simp [Adapter.find, hg, collOf, DB.normQuery]
    | cons x xs =>
      simp [Adapter.find, hg, collOf, DB.normQuery, Query.process, applySort, applyLimit]

theorem removeEach_nil (c : String) (st : AdapterState) :
    DB.removeEach c st [] = ([], st) := rfl

theorem removeEach_cons (c : String) (st : AdapterState) (i : JsVal)
    (rest : List JsVal) :
    DB.removeEach c st (i :: rest)
      = ((DB.removeById st c i).1
           :: (DB.removeEach c (DB.removeById st c i).2 rest).1,
         (DB.removeEach c (DB.removeById st c i).2 rest).2) := rfl

theorem collectAll_map_ok (l : List Entity) :
    DB.collectAll (l.map (fun e => .ok (some e))) = .ok (l.map some) := by
  induction l with
  | nil => rfl
  | cons x xs ih => simp [DB.collectAll, ih, Except.map]

/-- Removing a set of present, uniquely identified records one by one: each
removal returns its record, and afterwards the collection holds exactly the
records whose id was not removed. -/
theorem removeEach_spec (c : String) :
    ∀ (ents : List Entity) (st : AdapterState) (coll : List Entity),
      collOf st c = coll →
      (coll.map Entity.id).Nodup →
      (∀ e ∈ coll, idTruthy e.id = true) →
      (∀ e ∈ ents, e ∈ coll) →
      (ents.map Entity.id).Nodup →
      (DB.removeEach c st (ents.map (fun e => jsOfId e.id))).1
          = ents.map (fun e => Except.ok (some e))
      ∧ collOf (DB.removeEach c st (ents.map (fun e => jsOfId e.id))).2 c
          = coll.filter (fun x => !(ents.any (fun e2 => e2.id == x.id))) := by
  intro ents
  induction ents with
  | nil =>
    intro st coll hcoll hnd hgood hsub hnde
    constructor
    · rfl
    · simpa [DB.removeEach] using hcoll
  | cons e rest ih =>
    intro st coll hcoll hnd hgood hsub hnde
    have he : e ∈ coll := hsub e (List.mem_cons_self e rest)
    have hidt : idTruthy e.id = true := hgood e he
    obtain ⟨s, hs⟩ : ∃ s, e.id = some s := by
      cases hid : e.id with
      | none => rw [hid] at hidt; exact absurd hidt (by simp [idTruthy])
      | some s => exact ⟨s, rfl⟩
    have hsne : (s != "") = true := by
      rw [hs] at hidt
      simpa [idTruthy] using hidt
    have hgccoll : getColl st c = some coll := by
      cases hg : getColl st c with
      | none =>
        rw [collOf, hg] at hcoll
        simp at hcoll
        subst hcoll
        exact absurd he (List.not_mem_nil e)
      | some l =>
        rw [collOf, hg] at hcoll
        simp at hcoll
        rw [hcoll]
    have hfind : coll.find? (fun x => x.id == some s) = some e := by
      rw [← hs]
      exact find?_id_unique coll e hnd he
    have hrem : DB.removeById st c (.str s)
        = (.ok (some e), setColl st c (coll.filter (fun x => !(x.id == some s)))) := by
      unfold DB.removeById
      have htr : (JsVal.str s).truthy = true := by simpa [JsVal.truthy] using hsne
      rw [htr]
      simp only [Adapter.removeById, JsVal.isString, JsVal.strVal, hgccoll, hfind]
      rfl
    -- the state after removing e
    set st2 := setColl st c (coll.filter (fun x => !(x.id == some s))) with hst2
    set coll2 := coll.filter (fun x => !(x.id == some s)) with hcoll2
    have hcoll2of : collOf st2 c = coll2 := collOf_setColl st c coll2
    have hnd2 : (coll2.map Entity.id).Nodup :=
      List.Nodup.sublist (List.Sublist.map Entity.id (List.filter_sublist coll)) hnd
    have hgood2 : ∀ x ∈ coll2, idTruthy x.id = true :=
      fun x hx => hgood x (List.mem_of_mem_filter hx)
    have hndecons : (Entity.id e :: rest.map Entity.id).Nodup := by
      rw [List.map_cons] at hnde
      exact hnde
    have heidnotin : e.id ∉ rest.map Entity.id := (List.nodup_cons.mp hndecons).1
    have hsub2 : ∀ x ∈ rest, x ∈ coll2 := by
      intro x hx
      have hxcoll : x ∈ coll := hsub x (List.mem_cons_of_mem e hx)
      have hxid : (x.id == some s) = false := by
        cases hbe : x.id == some s
        · rfl
        · have : x.id = e.id := by rw [hs]; exact eq_of_beq hbe
          exact absurd (this ▸ List.mem_map_of_mem Entity.id hx) heidnotin
      exact List.mem_filter.mpr ⟨hxcoll, by simp [hxid]⟩
    have hnde2 : (rest.map Entity.id).Nodup := (List.nodup_cons.mp hndecons).2
    have ihres := ih st2 coll2 hcoll2of hnd2 hgood2 hsub2 hnde2
    have hstep : DB.removeEach c st ((e :: rest).map (fun x => jsOfId x.id))
        = (Except.ok (some e) :: (DB.removeEach c st2 (rest.map (fun x => jsOfId x.id))).1,
           (DB.removeEach c st2 (rest.map (fun x => jsOfId x.id))).2) := by
      have h1 : (e :: rest).map (fun x => jsOfId x.id)
          = JsVal.str s :: rest.map (fun x => jsOfId x.id) := by
        rw [List.map_cons, hs]
        rfl
      rw [h1, removeEach_cons, hrem]
    constructor
    · rw [hstep]
      simp only [List.map_cons]
      rw [ihres.1]
    · rw [hstep]
      simp only []
      rw [ihres.2]
      rw [hcoll2, filter_filter_bool]
      have hpred : (fun (x : Entity) => (!(x.id == some s)) && (!(rest.any (fun e2 => e2.id == x.id))))
          = (fun (x : Entity) => !((e :: rest).any (fun e2 => e2.id == x.id))) := by
        funext x
        simp only [List.any_cons, Bool.not_or]
        rw [hs, beq_comm_opt]
      rw [hpred]

theorem opEvents_zero (i : Nat) : opEvents i 0 = [] := rfl

theorem opEvents_succ (i n : Nat) :
    opEvents i (n + 1) = opEvents i n ++ [(i, n)] := by
  unfold opEvents
  rw [List.range_succ, List.map_append]
  rfl

theorem opEvents_take (i n d : Nat) (h : d ≤ n) :
    (opEvents i n).take d = opEvents i d := by
  unfold opEvents
  rw [← List.map_take, List.take_range]
  rw [min_eq_left h]

theorem opEvents_split (i n d : Nat) (h : d ≤ n) :
    opEvents i n = opEvents i d ++ (opEvents i n).drop d := by
  conv_lhs => rw [← List.take_append_drop d (opEvents i n)]
  rw [opEvents_take i n d h]

theorem serInv_init (ops : List SerOp) : serInv ops [] (initQState ops) := by
  intro k
  refine ⟨0, ?_, ?_, ?_, ?_⟩
  · rw [List.drop_zero]
    show ((keyOps ops k).map (fun p => (⟨p.1, p.2.steps + 1, 0, p.2.fails⟩ : QOp))).map
        (fun qe => (qe.idx, qe.total)) = _
    rw [List.map_map]
    rfl
  · intro qh hqh
    show qh.done < qh.total
    rw [show initQState ops k
        = (keyOps ops k).map (fun p => (⟨p.1, p.2.steps + 1, 0, p.2.fails⟩ : QOp)) from rfl,
      List.head?_map] at hqh
    rcases Option.map_eq_some'.mp hqh.symm.symm with ⟨p, hp, hqe⟩
    · rw [← hqe]
      exact Nat.succ_pos _
  · intro qe hqe
    show qe.done = 0
    cases hk : keyOps ops k with
    | nil =>
      rw [show initQState ops k
          = (keyOps ops k).map (fun p => (⟨p.1, p.2.steps + 1, 0, p.2.fails⟩ : QOp)) from rfl,
        hk] at hqe
      exact absurd hqe (by simp)
    | cons p t =>
      rw [show initQState ops k
          = (keyOps ops k).map (fun p => (⟨p.1, p.2.steps + 1, 0, p.2.fails⟩ : QOp)) from rfl,
        hk, List.map_cons] at hqe
      simp only [List.tail_cons] at hqe
      rcases List.mem_map.mp hqe with ⟨p2, hp2, hqe2⟩
      rw [← hqe2]
  · show ([] : List SerEvent).filter _ = _
    rw [List.filter_nil, List.take_zero]
    show [] = [].flatten ++ headEvents (initQState ops k)
    rw [List.flatten_nil, List.nil_append]
    unfold headEvents initQState
    rw [List.head?_map]
    cases (keyOps ops k).head? with
    | none => rfl
    | some p => rfl

theorem serInv_step (ops : List SerOp) (tr : List SerEvent) (st : QState)
    (k : String) (e : SerEvent) (st2 : QState)
    (hstep : stepKey st k = some (e, st2))
    (hinv : serInv ops tr st) : serInv ops (tr ++ [e]) st2 := by
  cases hq : st k with
  | nil =>
    unfold stepKey at hstep
    rw [hq] at hstep
    exact Option.noConfusion hstep
  | cons qh rest =>
    unfold stepKey at hstep
    rw [hq] at hstep
    have hstep2 : (if qh.done < qh.total then
        some (((qh.idx, qh.done) : SerEvent), fun k2 =>
          if k2 = k then
            (if qh.done + 1 = qh.total then rest
             else { qh with done := qh.done + 1 } :: rest)
          else st k2)
      else none) = some (e, st2) := hstep
    by_cases hg : qh.done < qh.total
    · rw [if_pos hg] at hstep2
      injection hstep2 with hpair
      have he : e = (qh.idx, qh.done) := (congrArg Prod.fst hpair).symm
      have hst2 : st2 = fun k2 =>
          if k2 = k then
            (if qh.done + 1 = qh.total then rest
             else { qh with done := qh.done + 1 } :: rest)
          else st k2 := (congrArg Prod.snd hpair).symm
      obtain ⟨m, hstruct, hhead, htail, hfilter⟩ := hinv k
      rw [hq] at hstruct hhead htail hfilter
      cases hd : (keyOps ops k).drop m with
      | nil =>
        rw [hd] at hstruct
        exact absurd hstruct (by simp)
      | cons p t =>
        rw [hd, List.map_cons, List.map_cons] at hstruct
        injection hstruct with h1 h2
        have hidx : qh.idx = p.1 := congrArg Prod.fst h1
        have htot : qh.total = p.2.steps + 1 := congrArg Prod.snd h1
        have hpmem : p ∈ keyOps ops k :=
          List.drop_subset m (keyOps ops k) (hd ▸ List.mem_cons_self p t)
        have hpmem2 : p ∈ ops.enum.filter (fun p2 => p2.2.key == k) := hpmem
        have hpe := List.mem_filter.mp hpmem2
        have hgete : ops[p.1]? = some p.2 := by
          have hh := List.mk_mem_enum_iff_getElem?.mp
            (show (p.1, p.2) ∈ ops.enum from hpe.1)
          exact hh
        have hpkey : p.2.key = k := eq_of_beq hpe.2
        have hkeyev : isKeyEvent ops k (qh.idx, qh.done) = true := by
          unfold isKeyEvent
          show (match ops[qh.idx]? with
                | some op => op.key == k
                | none => false) = true
          rw [hidx, hgete]
          exact hpe.2
        have hkeyev_ne : ∀ k2, k2 ≠ k → isKeyEvent ops k2 (qh.idx, qh.done) = false := by
          intro k2 hne
          unfold isKeyEvent
          show (match ops[qh.idx]? with
                | some op => op.key == k2
                | none => false) = false
          rw [hidx, hgete]
          show (p.2.key == k2) = false
          rw [hpkey]
          exact beq_eq_false_iff_ne.mpr (fun hh => hne hh.symm)
        have hsingle : List.filter (isKeyEvent ops k) [e] = [e] := by
          rw [he]
          simp [hkeyev]
        intro k2
        by_cases hk2 : k2 = k
        · subst hk2
          have hst2k : st2 k2 =
              (if qh.done + 1 = qh.total then rest
               else { qh with done := qh.done + 1 } :: rest) := by
            rw [hst2]
            simp
          rw [hst2k]
          by_cases hfin : qh.done + 1 = qh.total
          · rw [if_pos hfin]
            refine ⟨m + 1, ?_, ?_, ?_, ?_⟩
            · have hdrop : (keyOps ops k2).drop (m + 1) = t := by
                rw [← List.tail_drop, hd]
                rfl
              rw [hdrop]
              exact h2
            · intro qh2 hqh2
              have hdone0 : qh2.done = 0 := htail qh2 (List.mem_of_mem_head? hqh2)
              rw [hdone0]
              have hh := congrArg List.head? h2
              rw [List.head?_map, List.head?_map] at hh
              rw [Option.mem_def] at hqh2
              rw [hqh2] at hh
              cases hth : t.head? with
              | none =>
                rw [hth] at hh
                exact Option.noConfusion hh
              | some p2 =>
                rw [hth] at hh
                injection hh with hh2
                have hq2tot : qh2.total = p2.2.steps + 1 := congrArg Prod.snd hh2
                rw [hq2tot]
                exact Nat.succ_pos _
            · intro qe hqe
              exact htail qe (List.mem_of_mem_tail hqe)
            · rw [List.filter_append, hfilter, hsingle]
              have htake : (keyOps ops k2).take (m + 1)
                  = (keyOps ops k2).take m ++ [p] := by
                rw [List.take_succ]
                have hgetm : (keyOps ops k2)[m]? = some p := by
                  have hh : ((keyOps ops k2).drop m).head? = some p := by
                    rw [hd]
                    rfl
                  rwa [List.head?_drop] at hh
                rw [hgetm]
                rfl
              have hre : headEvents rest = [] := by
                cases hrh : rest.head? with
                | none =>
                  unfold headEvents
                  rw [hrh]
                | some qh2 =>
                  unfold headEvents
                  rw [hrh]
                  show opEvents qh2.idx qh2.done = []
                  have hdone0 : qh2.done = 0 :=
                    htail qh2 (List.mem_of_mem_head? (Option.mem_def.mpr hrh))
                  rw [hdone0]
                  rfl
              rw [htake, List.map_append, List.flatten_append, hre]
              show _ ++ headEvents (qh :: rest) ++ [e]
                  = _ ++ (opEvents p.1 (p.2.steps + 1) ++ []) ++ []
              rw [show headEvents (qh :: rest) = opEvents qh.idx qh.done from rfl]
              rw [List.append_nil, List.append_nil]
              rw [← hidx, ← htot, ← hfin, opEvents_succ, ← he]
              rw [List.append_assoc]
          · rw [if_neg hfin]
            refine ⟨m, ?_, ?_, ?_, ?_⟩
            · rw [List.map_cons, hd, List.map_cons]
              rw [show ((({ qh with done := qh.done + 1 } : QOp)).idx,
                    (({ qh with done := qh.done + 1 } : QOp)).total)
                  = (qh.idx, qh.total) from rfl]
              rw [h1, h2]
            · intro qh2 hqh2
              rw [Option.mem_def, List.head?_cons] at hqh2
              injection hqh2 with hqh2e
              rw [← hqh2e]
              show qh.done + 1 < qh.total
              exact lt_of_le_of_ne (Nat.succ_le_of_lt hg) hfin
            · intro qe hqe
              exact htail qe hqe
            · rw [List.filter_append, hfilter, hsingle]
              show _ ++ headEvents (qh :: rest) ++ [e]
                  = _ ++ headEvents ({ qh with done := qh.done + 1 } :: rest)
              rw [show headEvents (qh :: rest) = opEvents qh.idx qh.done from rfl]
              rw [show headEvents ({ qh with done := qh.done + 1 } :: rest)
                  = opEvents qh.idx (qh.done + 1) from rfl]
              rw [opEvents_succ, ← he, List.append_assoc]
        · have hst2k2 : st2 k2 = st k2 := by
            rw [hst2]
            simp [hk2]
          rw [hst2k2]
          obtain ⟨m2, hs2, hh2, ht2, hf2⟩ := hinv k2
          refine ⟨m2, hs2, hh2, ht2, ?_⟩
          rw [List.filter_append, hf2]
          have hnone : List.filter (isKeyEvent ops k2) [e] = [] := by
            rw [he]
            simp [hkeyev_ne k2 hk2]
          rw [hnone, List.append_nil]
    · rw [if_neg hg] at hstep2
      exact Option.noConfusion hstep2

theorem serInv_exec {s : QState} {tr : List SerEvent} {s2 : QState}
    (hex : SerExec s tr s2) (ops : List SerOp) :
    ∀ tr0, serInv ops tr0 s → serInv ops (tr0 ++ tr) s2 := by
  induction hex with
  | nil s =>
    intro tr0 h
    simpa using h
  | step hstep hrest ih =>
    intro tr0 h
    have h2 := serInv_step ops tr0 _ _ _ _ hstep h
    have h3 := ih (tr0 ++ [_]) h2
    rwa [List.append_assoc] at h3

theorem serInv_key_trace (ops : List SerOp) (tr : List SerEvent) (st : QState)
    (h : serInv ops tr st) (k : String) :
    ∃ t2, tr.filter (isKeyEvent ops k) ++ t2 = canonicalKeyTrace ops k := by
  obtain ⟨m, hstruct, hhead, htail, hfilter⟩ := h k
  have hcanon : canonicalKeyTrace ops k
      = ((List.take m (keyOps ops k)).map (fun p => opEvents p.1 (p.2.steps + 1))).flatten
        ++ ((List.drop m (keyOps ops k)).map (fun p => opEvents p.1 (p.2.steps + 1))).flatten := by
    unfold canonicalKeyTrace
    rw [← List.flatten_append, ← List.map_append, List.take_append_drop]
  cases hq : st k with
  | nil =>
    rw [hq] at hstruct hfilter
    have hdrop : (keyOps ops k).drop m = [] := by
      cases hdd : (keyOps ops k).drop m with
      | nil => rfl
      | cons a b =>
        rw [hdd] at hstruct
        exact absurd hstruct (by simp)
    refine ⟨[], ?_⟩
    rw [List.append_nil, hfilter, hcanon, hdrop]
    rfl
  | cons qh rest =>
    rw [hq] at hstruct hhead htail hfilter
    cases hd : (keyOps ops k).drop m with
    | nil =>
      rw [hd] at hstruct
      exact absurd hstruct (by simp)
    | cons p t =>
      rw [hd, List.map_cons, List.map_cons] at hstruct
      injection hstruct with h1 h2
      have hidx : qh.idx = p.1 := congrArg Prod.fst h1
      have htot : qh.total = p.2.steps + 1 := congrArg Prod.snd h1
      have hlt : qh.done < qh.total := hhead qh rfl
      refine ⟨(opEvents qh.idx qh.total).drop qh.done
          ++ (t.map (fun p2 => opEvents p2.1 (p2.2.steps + 1))).flatten, ?_⟩
      rw [hfilter, hcanon, hd]
      rw [show headEvents (qh :: rest) = opEvents qh.idx qh.done from rfl]
      rw [List.map_cons, List.flatten_cons]
      rw [← hidx, ← htot]
      rw [List.append_assoc]
      congr 1
      rw [← List.append_assoc]
      congr 1
      exact (opEvents_split qh.idx qh.total qh.done (le_of_lt hlt)).symm

theorem stepKey_setFailsTo (g : Nat → Bool) (st : QState) (k : String) :
    stepKey (setFailsTo g st) k
      = Option.map (fun p => (p.1, setFailsTo g p.2)) (stepKey st k) := by
  unfold stepKey
  rw [show setFailsTo g st k = (st k).map (fun q => { q with fails := g q.idx }) from rfl]
  cases st k with
  | nil => rfl
  | cons qh rest =>
    rw [List.map_cons]
    show (if qh.done < qh.total then
        some (((qh.idx, qh.done) : SerEvent), fun k2 =>
          if k2 = k then
            (if qh.done + 1 = qh.total then
              rest.map (fun q => { q with fails := g q.idx })
             else { qh with done := qh.done + 1, fails := g qh.idx }
                :: rest.map (fun q => { q with fails := g q.idx }))
          else setFailsTo g st k2)
      else none)
      = Option.map (fun p => (p.1, setFailsTo g p.2))
        (if qh.done < qh.total then
          some (((qh.idx, qh.done) : SerEvent), fun k2 =>
            if k2 = k then
              (if qh.done + 1 = qh.total then rest
               else { qh with done := qh.done + 1 } :: rest)
            else st k2)
        else none)
    by_cases hg : qh.done < qh.total
    · rw [if_pos hg, if_pos hg]
      refine congrArg some ?_
      refine Prod.ext rfl ?_
      show _ = setFailsTo g (fun k2 =>
          if k2 = k then
            (if qh.done + 1 = qh.total then rest
             else { qh with done := qh.done + 1 } :: rest)
          else st k2)
      funext k2
      show (if k2 = k then _ else setFailsTo g st k2)
          = ((if k2 = k then
              (if qh.done + 1 = qh.total then rest
               else { qh with done := qh.done + 1 } :: rest)
              else st k2).map (fun q => { q with fails := g q.idx }))
      by_cases hk2 : k2 = k
      · rw [if_pos hk2, if_pos hk2]
        by_cases hfin : qh.done + 1 = qh.total
        · rw [if_pos hfin, if_pos hfin]
        · rw [if_neg hfin, if_neg hfin]
          rfl
      · rw [if_neg hk2, if_neg hk2]
        rfl
    · rw [if_neg hg, if_neg hg]
      rfl

theorem serExec_step_at (k : String) {s : QState} {tr : List SerEvent}
    {s3 : QState} (e : SerEvent) (s2 : QState)
    (h : stepKey s k = some (e, s2)) (h2 : SerExec s2 tr s3) :
    SerExec s (e :: tr) s3 := SerExec.step h h2

/-!
Claim theorems.
-/

/-- C1, counterexample: with "BrowserLocal" unregistered and "Memory"
registered with a succeeding probe, resolving `["BrowserLocal", "Memory"]`
does NOT fail with the Configuration Error naming "BrowserLocal": the later
identifier IS probed and resolution succeeds on it.  This refutes the claim
that an unregistered identifier makes resolution fail immediately without
probing later identifiers. -/
theorem c1_counterexample :
    List.lookup "BrowserLocal" availMemOnly = none
    ∧ getFirstSupportedRepo availMemOnly ["BrowserLocal", "Memory"] = .ok ⟨"Memory", true⟩
    ∧ chooseOfflineRepo availMemOnly ["BrowserLocal", "Memory"] = .ok ⟨"Memory", true⟩
    ∧ chooseOfflineRepo availMemOnly ["BrowserLocal", "Memory"]
        ≠ .error (.storageNotAvailable "BrowserLocal") := by
  refine ⟨rfl, rfl, rfl, ?_⟩
  intro h
  exact Except.noConfusion h

/-- C1, amended: an identifier with no registered builder makes that step of
the chain fail with the Configuration Error naming it, but the failure IS
retried with the next identifier (the next `.catch` treats it like a failed
probe), so later identifiers are probed; the Configuration Error can only be
the chain's outcome when the unregistered identifier is last, and overall
resolution then reports the Environment Error instead. -/
theorem c1_amended (avail : List (String × RepoBuilder)) (sp : String)
    (rest : List String) (h : List.lookup sp avail = none) :
    (rest ≠ [] → getFirstSupportedRepo avail (sp :: rest)
        = getFirstSupportedRepo avail rest)
    ∧ getFirstSupportedRepo avail [sp] = .error (.storageNotAvailable sp)
    ∧ chooseOfflineRepo avail [sp] = .error .noSupportedStorage := by
  have hstep : firstSupportedStep avail (.error .initial) sp
      = .error (.storageNotAvailable sp) := by
    simp [firstSupportedStep, getRepoForStorageProvider, h]
  refine ⟨?_, ?_, ?_⟩
  · intro hne
    unfold getFirstSupportedRepo
    simp only [List.foldl]
    rw [hstep]
    exact foldl_firstSupportedStep_error_indep avail rest hne _ _
  · unfold getFirstSupportedRepo
    simp only [List.foldl]
    rw [hstep]
  · unfold chooseOfflineRepo getFirstSupportedRepo
    simp only [List.foldl]
    rw [hstep]

/-- Witness for C1 (amended) at a concrete input: skipping the unregistered
"BrowserLocal" makes the chain over `["BrowserLocal", "Memory"]` equal to
the chain over `["Memory"]`; with "BrowserLocal" alone the chain yields the
Configuration Error and resolution the Environment Error. -/
theorem c1_amended_witness :
    getFirstSupportedRepo availMemOnly ["BrowserLocal", "Memory"]
        = getFirstSupportedRepo availMemOnly ["Memory"]
    ∧ getFirstSupportedRepo availMemOnly ["BrowserLocal"]
        = .error (.storageNotAvailable "BrowserLocal")
    ∧ chooseOfflineRepo availMemOnly ["BrowserLocal"] = .error .noSupportedStorage := by
  have h := c1_amended availMemOnly "BrowserLocal" ["Memory"] rfl
  exact ⟨h.1 (by simp), h.2.1, h.2.2⟩

/-- C3: when every identifier in the priority list is exhausted without a
successful probe (each is either unregistered or its candidate's probe
fails), resolution fails with the Environment Error "None of the selected
storage providers are supported in this environment."; and every outcome of
resolution is either a successfully probed engine or exactly that error —
no candidate is silently substituted and no other failure shape escapes. -/
theorem c3_exhaustion_env_error (avail : List (String × RepoBuilder))
    (l : List String) :
    ((∀ sp ∈ l, ∀ b, List.lookup sp avail = some b → (b .shared).probeOk = false) →
      chooseOfflineRepo avail l = .error .noSupportedStorage)
    ∧ ((∃ r, chooseOfflineRepo avail l = .ok r)
        ∨ chooseOfflineRepo avail l = .error .noSupportedStorage) := by
  constructor
  · intro h
    obtain ⟨e2, he⟩ := foldl_firstSupportedStep_all_fail avail l h .initial
    unfold chooseOfflineRepo getFirstSupportedRepo
    rw [he]
  · cases hg : getFirstSupportedRepo avail l with
    | ok r => exact Or.inl ⟨r, by simp [chooseOfflineRepo, hg]⟩
    | error e => exact Or.inr (by simp [chooseOfflineRepo, hg])

/-- Witness for C3 at a concrete input: "Memory" registered with a failing
probe and "BrowserLocal" unregistered; resolution of both fails with the
Environment Error. -/
theorem c3_exhaustion_env_error_witness :
    chooseOfflineRepo availMemFailing ["Memory", "BrowserLocal"]
      = .error .noSupportedStorage := by
  refine (c3_exhaustion_env_error availMemFailing ["Memory", "BrowserLocal"]).1 ?_
  intro sp hsp b hb
  rcases List.mem_cons.mp hsp with h1 | h2
  · subst h1
    injection hb with hb2
    rw [← hb2]
    rfl
  · rcases List.mem_cons.mp h2 with h1 | h3
    · subst h1
      exact Option.noConfusion hb
    · exact absurd h3 (List.not_mem_nil sp)

/-- C4: provider resolution is memoized and idempotent — the first call
caches its outcome (fulfilment or rejection) in `_chosenRepoPromise`, a
second call returns the same outcome and leaves the state unchanged, and
replacing the technology mapping between calls changes neither the outcome
of a later call nor anything but the mapping itself. -/
theorem c4_resolution_memoized (s : ProviderState)
    (repos2 : List (String × RepoBuilder)) :
    (getOfflineRepository (getOfflineRepository s).2).1 = (getOfflineRepository s).1
    ∧ (getOfflineRepository (getOfflineRepository s).2).2 = (getOfflineRepository s).2
    ∧ (getOfflineRepository s).2.chosenRepoPromise = some (getOfflineRepository s).1
    ∧ (getOfflineRepository (setSupportedRepoBuilders (getOfflineRepository s).2 repos2)).1
        = (getOfflineRepository s).1
    ∧ (getOfflineRepository (setSupportedRepoBuilders (getOfflineRepository s).2 repos2)).2
        = setSupportedRepoBuilders (getOfflineRepository s).2 repos2 := by
  cases h : s.chosenRepoPromise with
  | some p => simp [getOfflineRepository, setSupportedRepoBuilders, h]
  | none => simp [getOfflineRepository, setSupportedRepoBuilders, h]

/-- C2, counterexample: `remove` DOES mutate a caller-supplied `Query`
instance — after `remove("books", q0)` with `q0` carrying a sort, `limit 1`
and `skip 2`, the caller's query object has sort null, limit null and skip
0.  This refutes the claim that no cache-engine operation mutates the
supplied query object. -/
theorem c2_counterexample :
    (DB.remove stBooks "books" (some (.inst q0))).callerQuery ≠ some (.inst q0)
    ∧ (DB.remove stBooks "books" (some (.inst q0))).callerQuery
        = some (.inst ⟨.all, none, none, 0⟩) := by
  constructor
  · intro h
    revert h
    decide
  · decide

/-- C2, amended: `find` and `count` leave the caller's query unchanged, and
`remove` given a plain specification copies it (the caller's object is
untouched); but `remove` given a `Query` instance sets its sort and limit to
null and its skip to 0 in place before evaluation, leaving only the
predicate unchanged. -/
theorem c2_query_mutation (st : AdapterState) (c : String)
    (q : Option QueryInput) (s : Query) (spec : QuerySpec) :
    (DB.find st c q).2 = q
    ∧ (DB.count st c q).2 = q
    ∧ (DB.remove st c (some (.plain spec))).callerQuery = some (.plain spec)
    ∧ (DB.remove st c none).callerQuery = none
    ∧ (DB.remove st c (some (.inst s))).callerQuery
        = some (.inst { s with sort := none, limit := none, skip := 0 })
    ∧ ({ s with sort := none, limit := none, skip := 0 } : Query).filter = s.filter := by
  exact ⟨rfl, rfl, rfl, rfl, rfl, rfl⟩

/-- The per-record save normalization preserves the number of records. -/
theorem prepEntities_length (gen : Nat → String) :
    ∀ (n : Nat) (l : List Entity),
      (DB.prepEntities gen n l).length = l.length := by
  intro n l
  induction l generalizing n with
  | nil => rfl
  | cons e rest ih =>
    unfold DB.prepEntities
    cases idTruthy e.id <;> simp [ih]

/-- C5: `save` is contract-symmetric — a single (non-array) record in gives
a single record out, and an array of records in gives the full normalized
sequence out (same length as the input). -/
theorem c5_save_symmetry (st : AdapterState) (gen : Nat → String) (c : String)
    (e : Entity) (l : List Entity) :
    (∃ r, (DB.save st gen c (.single e)).1 = .ok (.one r))
    ∧ (DB.save st gen c (.seq l)).1 = .ok (.seq (DB.prepEntities gen 0 l))
    ∧ (DB.prepEntities gen 0 l).length = l.length := by
  refine ⟨?_, rfl, prepEntities_length gen 0 l⟩
  cases h : idTruthy e.id with
  | false =>
    refine ⟨{ e with id := some (gen 0),
                     kmd := some { e.kmd.getD Kmd.empty with local_ := true } }, ?_⟩
    simp [DB.save, DB.prepEntities, Adapter.save, h]
  | true =>
    refine ⟨{ e with kmd := some (e.kmd.getD Kmd.empty) }, ?_⟩
    simp [DB.save, DB.prepEntities, Adapter.save, h]

/-- C7: the find half of the claim holds — an adapter Not-Found (absent
collection) is normalized to the empty sequence — but the findById half
fails on the code: `findById` returns the adapter's promise without
awaiting it, so a Not-Found rejection bypasses the normalize-to-undefined
catch block and propagates to the caller as a failure. -/
theorem c7_not_found_normalization :
    (DB.find ([] : AdapterState) "missing" none).1 = .ok []
    ∧ DB.findById stBooks "books" (.str "zz") = .error .notFound
    ∧ DB.findById stBooks "books" (.str "zz") ≠ .ok none := by
  refine ⟨rfl, rfl, ?_⟩
  intro h
  exact Except.noConfusion h

/-- C8: a non-string id makes `findById` fail with the Validation Error
("id must be a string") without consulting the adapter; `removeById` with a
falsy id short-circuits to undefined leaving the state untouched, and with
a truthy non-string id fails with the Validation Error leaving the state
untouched. -/
theorem c8_id_validation (st : AdapterState) (c : String) (id : JsVal) :
    (id.isString = false → DB.findById st c id = .error (.kinvey "id must be a string"))
    ∧ (id.truthy = false → DB.removeById st c id = (.ok none, st))
    ∧ (id.truthy = true → id.isString = false →
        DB.removeById st c id = (.error (.kinvey "id must be a string"), st)) := by
  refine ⟨?_, ?_, ?_⟩
  · intro h
    unfold DB.findById
    rw [h]
    rfl
  · intro h
    unfold DB.removeById
    rw [h]
    rfl
  · intro ht hs
    unfold DB.removeById
    rw [ht, hs]
    rfl

/-- Witness for C8 at concrete inputs: `findById` with the number 123,
`removeById` with null and with the number 123. -/
theorem c8_id_validation_witness :
    DB.findById stBooks "books" (.num 123) = .error (.kinvey "id must be a string")
    ∧ DB.removeById stBooks "books" .nullV = (.ok none, stBooks)
    ∧ DB.removeById stBooks "books" (.num 123)
        = (.error (.kinvey "id must be a string"), stBooks) :=
  ⟨(c8_id_validation stBooks "books" (.num 123)).1 rfl,
   (c8_id_validation stBooks "books" .nullV).2.1 rfl,
   (c8_id_validation stBooks "books" (.num 123)).2.2 rfl rfl⟩

/-- C9: the operation serializer (spec-modelled, `PromiseQueueByKey` source
not under src/) guarantees per-key FIFO without overlap: in every execution
from the submitted operations, each key's events form a left-portion of that
key's fully sequential trace — every turn of an earlier operation under a
key, including its settling turn, precedes every turn of a later operation
under that key (so same-key operations run in submission order and never
overlap), while turns granted to different keys interleave freely (two
executions with different cross-key interleavings are exhibited).  A failing
operation does not poison its key's chain: scheduling is invariant under
rewriting every operation's outcome flag, and an execution is exhibited in
which a failing operation's same-key successor still runs. -/
theorem c9_serializer_guarantees :
    (∀ (ops : List SerOp) (tr : List SerEvent) (s2 : QState),
        SerExec (initQState ops) tr s2 →
        ∀ k, ∃ t2, tr.filter (isKeyEvent ops k) ++ t2 = canonicalKeyTrace ops k)
    ∧ (∀ (g : Nat → Bool) (st : QState) (k : String),
        stepKey (setFailsTo g st) k
          = Option.map (fun p => (p.1, setFailsTo g p.2)) (stepKey st k))
    ∧ (∃ s2, SerExec (initQState opsAB) [(0, 0), (1, 0), (0, 1), (1, 1)] s2)
    ∧ (∃ s2, SerExec (initQState opsAB) [(1, 0), (1, 1), (0, 0), (0, 1)] s2)
    ∧ (∃ s2, SerExec (initQState opsFailThenRun) [(0, 0), (1, 0)] s2) := by
  refine ⟨?_, stepKey_setFailsTo, ?_, ?_, ?_⟩
  · intro ops tr s2 hex k
    have hinv := serInv_exec hex ops [] (serInv_init ops)
    exact serInv_key_trace ops ([] ++ tr) s2 hinv k
  · exact ⟨_, serExec_step_at "a" (0, 0) _ rfl
      (serExec_step_at "b" (1, 0) _ rfl
        (serExec_step_at "a" (0, 1) _ rfl
          (serExec_step_at "b" (1, 1) _ rfl (SerExec.nil _))))⟩
  · exact ⟨_, serExec_step_at "b" (1, 0) _ rfl
      (serExec_step_at "b" (1, 1) _ rfl
        (serExec_step_at "a" (0, 0) _ rfl
          (serExec_step_at "a" (0, 1) _ rfl (SerExec.nil _))))⟩
  · exact ⟨_, serExec_step_at "a" (0, 0) _ rfl
      (serExec_step_at "a" (1, 0) _ rfl (SerExec.nil _))⟩

/-- Witness for C9 at a concrete input: in the interleaved execution of the
two-key workload, key "a" observes exactly its own canonical sequential
trace portion. -/
theorem c9_serializer_guarantees_witness :
    ∃ t2, (([(0, 0), (1, 0), (0, 1), (1, 1)] : List SerEvent).filter
        (isKeyEvent opsAB "a")) ++ t2 = canonicalKeyTrace opsAB "a" := by
  obtain ⟨s2, hex⟩ := c9_serializer_guarantees.2.2.1
  exact c9_serializer_guarantees.1 opsAB _ s2 hex "a"

/-- C10: the `DB` class defines no `clear` member, so the DELETE branch with
no collection name always rejects with a TypeError, removes no records (the
state is unchanged), and its success response (status Ok) is unreachable. -/
theorem c10_clear_undefined :
    "clear" ∉ DB.methodNames
    ∧ ∀ (st : AdapterState) (gen : Nat → String) (r : HRequest),
        r.method = .DELETE → strTruthy r.collectionName = false →
        CacheMiddleware.handle st gen r
          = (.error (.typeError "db.clear is not a function"), st) := by
  refine ⟨by decide, ?_⟩
  intro st gen r hm hcn
  unfold CacheMiddleware.handle
  rw [hm]
  simp [hcn]

/-- C6: `remove` discards the supplied query's sort, limit and skip before
evaluation — for any query over a collection of uniquely identified records
it removes exactly the records matching the predicate (each removed
individually by its id, results collected), never a windowed subset: the
collection afterwards holds exactly the non-matching records. -/
theorem c6_remove_ignores_windowing (st : AdapterState) (c : String) (q : Query)
    (h1 : ((collOf st c).map Entity.id).Nodup)
    (h2 : ∀ e ∈ collOf st c, idTruthy e.id = true) :
    (DB.remove st c (some (.inst q))).result
        = .ok (((collOf st c).filter q.filter.eval).map some)
    ∧ collOf (DB.remove st c (some (.inst q))).state c
        = (collOf st c).filter (fun e => !(q.filter.eval e)) := by
  have hfind : (DB.find st c (some (.inst { q with sort := none, limit := none, skip := 0 }))).1
      = .ok ((collOf st c).filter q.filter.eval) := find_cleared_query st c q.filter
  have hsub : ∀ e ∈ (collOf st c).filter q.filter.eval, e ∈ collOf st c :=
    fun e he => List.mem_of_mem_filter he
  have hnde : (((collOf st c).filter q.filter.eval).map Entity.id).Nodup :=
    List.Nodup.sublist (List.Sublist.map Entity.id (List.filter_sublist (collOf st c))) h1
  have hre := removeEach_spec c ((collOf st c).filter q.filter.eval) st (collOf st c)
    rfl h1 h2 hsub hnde
  have hcore : DB.removeCore st c (some { q with sort := none, limit := none, skip := 0 })
      = (.ok ((((collOf st c).filter q.filter.eval)).map some),
         (DB.removeEach c st
           (((collOf st c).filter q.filter.eval).map (fun e => jsOfId e.id))).2) := by
    unfold DB.removeCore
    rw [show (DB.find st c (Option.map QueryInput.inst
          (some ({ q with sort := none, limit := none, skip := 0 } : Query)))).1
        = Except.ok ((collOf st c).filter q.filter.eval) from hfind]
    show (DB.collectAll (DB.removeEach c st
            (((collOf st c).filter q.filter.eval).map (fun e => jsOfId e.id))).1,
          (DB.removeEach c st
            (((collOf st c).filter q.filter.eval).map (fun e => jsOfId e.id))).2) = _
    rw [hre.1, collectAll_map_ok]
  have hany : ∀ x ∈ collOf st c,
      (((collOf st c).filter q.filter.eval).any (fun e2 => e2.id == x.id))
        = q.filter.eval x := by
    intro x hx
    cases hev : q.filter.eval x with
    | true =>
      have hxm : x ∈ (collOf st c).filter q.filter.eval :=
        List.mem_filter.mpr ⟨hx, hev⟩
      exact List.any_of_mem hxm (by simp)
    | false =>
      cases hany2 : ((collOf st c).filter q.filter.eval).any (fun e2 => e2.id == x.id) with
      | false => rfl
      | true =>
        rw [List.any_eq_true] at hany2
        obtain ⟨e2, he2m, he2beq⟩ := hany2
        have he2c : e2 ∈ collOf st c := List.mem_of_mem_filter he2m
        have he2ev : q.filter.eval e2 = true := (List.mem_filter.mp he2m).2
        have he2id : e2.id = x.id := eq_of_beq he2beq
        have he2x : e2 = x := List.inj_on_of_nodup_map h1 he2c hx he2id
        have hevx : q.filter.eval x = true := he2x ▸ he2ev
        rw [hevx] at hev
        exact Bool.noConfusion hev
  constructor
  · show (DB.removeCore st c (some { q with sort := none, limit := none, skip := 0 })).1 = _
    rw [hcore]
  · show collOf (DB.removeCore st c (some { q with sort := none, limit := none, skip := 0 })).2 c = _
    rw [hcore]
    rw [hre.2]
    refine List.filter_congr ?_
    intro x hx
    rw [hany x hx]

/-- Witness for C6 at a concrete input: removing with a query matching two
of three records, windowed by a sort, `limit 1` and a skip — BOTH matching
records are removed (the window is ignored) and only the non-matching one
remains. -/
theorem c6_remove_ignores_windowing_witness :
    ((DB.remove stC6 "notes" (some (.inst qWindowed))).result
        = .ok (((collOf stC6 "notes").filter qWindowed.filter.eval).map some)
      ∧ collOf (DB.remove stC6 "notes" (some (.inst qWindowed))).state "notes"
        = (collOf stC6 "notes").filter (fun e => !(qWindowed.filter.eval e)))
    ∧ ((collOf stC6 "notes").filter qWindowed.filter.eval).map some
        = [some ⟨some "a1", none, "x"⟩, some ⟨some "a2", none, "x"⟩]
    ∧ (collOf stC6 "notes").filter (fun e => !(qWindowed.filter.eval e))
        = [⟨some "b1", none, "y"⟩] :=
  ⟨c6_remove_ignores_windowing stC6 "notes" qWindowed (by decide) (by decide),
   by decide, by decide⟩

/-- Witness for C10 at a concrete input: a DELETE request with no
collection name against an empty database. -/
theorem c10_clear_undefined_witness :
    CacheMiddleware.handle ([] : AdapterState) (fun _ => "") reqClear
      = (.error (.typeError "db.clear is not a function"), []) :=
  c10_clear_undefined.2 [] (fun _ => "") reqClear rfl rfl

end JsSdk
